import Mathlib

/-!
Shallow embedding of the type-classification engine of
eslint-plugin-class-validator-type-match (source: the type-utility module).

The engine is a family of pure functions over TSESTree type-expression
nodes.  Every claim under verification fixes the optional TypeScript
type-checker oracle to null, so all definitions below embed the
checker-absent instantiation of the source functions: the branches guarded
by a non-null checker are skipped, exactly as the source does when its
checker and esTreeNodeMap parameters are null.
-/

/-- Runtime typeof-category of the value carried by a Literal expression
node, as tested by the source via typeof on literal.value. -/
inductive LitKind where
  | strVal
  | numVal
  | boolVal
  | otherVal
deriving DecidableEq, Repr

/-- The literal field of a TSLiteralType node: either a Literal expression
node (whose value has some typeof category) or one of the other expression
kinds that can appear there (template literals, unary expressions, ...). -/
inductive TSLiteral where
  | literal (k : LitKind)
  | nonLiteral
deriving DecidableEq, Repr

/-- TSESTree EntityName: an Identifier, a TSQualifiedName (left-associated
dotted path whose right component is an Identifier name), or any other
expression shape that can sit in that position. -/
inductive EntityName where
  | ident (name : String)
  | qualified (left : EntityName) (right : String)
  | otherEntity
deriving DecidableEq, Repr

/-- TSESTree type-expression nodes, restricted to the node kinds the engine
dispatches on; every other kind is collapsed into otherType, which the
source handles through its default/fall-through paths. -/
inductive TypeNode where
  | stringKeyword
  | numberKeyword
  | booleanKeyword
  | nullKeyword
  | undefinedKeyword
  | arrayType (elementType : TypeNode)
  | tupleType (elementTypes : List TypeNode)
  | namedTupleMember (elementType : TypeNode)
  | typeReference (typeName : EntityName) (typeArguments : Option (List TypeNode))
  | typeLiteral
  | unionType (types : List TypeNode)
  | intersectionType (types : List TypeNode)
  | literalType (lit : TSLiteral)
  | typeOperator (operator : String) (tyAnn : Option TypeNode)
  | templateLiteralType
  | otherType

/-- Worker for unwrapReadonlyOperator; it additionally carries the proof
that unwrapping never grows the node, which the termination arguments of
the recursive classification functions below rely on. -/
def unwrapReadonlyOperatorAux : (t : TypeNode) → {u : TypeNode // sizeOf u ≤ sizeOf t}
  | .typeOperator op (some inner) =>
    if op == "readonly" then
      let r := unwrapReadonlyOperatorAux inner
      ⟨r.val, by
        have h := r.property
        simp only [TypeNode.typeOperator.sizeOf_spec, Option.some.sizeOf_spec]
        omega⟩
    else ⟨.typeOperator op (some inner), Nat.le_refl _⟩
  | t => ⟨t, Nat.le_refl _⟩

/-- Removes readonly type operator wrappers to access the underlying type
(source: unwrapReadonlyOperator).  Other type operators such as keyof are
preserved, and a readonly operator node without a child is returned as is. -/
def unwrapReadonlyOperator (t : TypeNode) : TypeNode :=
  (unwrapReadonlyOperatorAux t).val

/-- Worker for the TSQualifiedName walk of getTypeReferenceName: unshifts
each right-hand name while descending the left spine, then prepends the
final Identifier name when the spine ends in one. -/
def qualifiedNameParts : EntityName → List String → List String
  | .qualified left right, parts => qualifiedNameParts left (right :: parts)
  | .ident name, parts => name :: parts
  | .otherEntity, parts => parts

/-- Extracts the name from a TSQualifiedName or Identifier (source:
getTypeReferenceName); unrecognized reference shapes give the empty
string. -/
def getTypeReferenceName (typeName : EntityName) : String :=
  match typeName with
  | .ident name => name
  | .qualified left right => String.intercalate "." (qualifiedNameParts (.qualified left right) [])
  | .otherEntity => ""

/-- Result shape of isNullableUnion: the isNullable flag together with the
base type (null in the source becomes none here). -/
structure NullableUnionInfo where
  isNullable : Bool
  baseType : Option TypeNode

/-- The member walk of isNullableUnion: null and undefined keywords set
flags, the first other member becomes the base type, and a second other
member aborts with a negative answer; at the end the union is nullable
exactly when a base type was found and one of the flags is set. -/
def nullableUnionScan : List TypeNode → Option TypeNode → Bool → Bool → NullableUnionInfo
  | [], base, hasNull, hasUndefined =>
    match base with
    | some b => if hasNull || hasUndefined then ⟨true, some b⟩ else ⟨false, none⟩
    | none => ⟨false, none⟩
  | t :: rest, base, hasNull, hasUndefined =>
    match t with
    | .nullKeyword => nullableUnionScan rest base true hasUndefined
    | .undefinedKeyword => nullableUnionScan rest base hasNull true
    | _ =>
      match base with
      | none => nullableUnionScan rest (some t) hasNull hasUndefined
      | some _ => ⟨false, none⟩

/-- Determines if a union type represents a nullable value, T or null or
undefined, where T is a single non-null, non-undefined type (source:
isNullableUnion). -/
def isNullableUnion (t : TypeNode) : NullableUnionInfo :=
  match t with
  | .unionType types => nullableUnionScan types none false false
  | _ => ⟨false, none⟩

/-- True exactly on TSLiteralType nodes. -/
def isLiteralTypeNode (t : TypeNode) : Bool :=
  match t with
  | .literalType _ => true
  | _ => false

/-- Checks if a type is a union whose members are all literal types
(source: isUnionOfLiterals). -/
def isUnionOfLiterals (t : TypeNode) : Bool :=
  match t with
  | .unionType types => types.all isLiteralTypeNode
  | _ => false

/-- True exactly on the null and undefined keyword nodes, the two member
shapes analyzeUnionType treats as nullability markers. -/
def isNullOrUndefinedKeyword (t : TypeNode) : Bool :=
  match t with
  | .nullKeyword => true
  | .undefinedKeyword => true
  | _ => false

/-- Unwraps a named tuple member to its element type, leaving every other
tuple element unchanged (the mapper inside getTupleElementTypes). -/
def tupleElementType (e : TypeNode) : TypeNode :=
  match e with
  | .namedTupleMember inner => inner
  | e => e

/-- Gets all element types from a tuple type (source:
getTupleElementTypes); non-tuple inputs give the empty list. -/
def getTupleElementTypes (t : TypeNode) : List TypeNode :=
  match unwrapReadonlyOperator t with
  | .tupleType es => es.map tupleElementType
  | _ => []

/-- Result of getUtilityTypeArgument: the recognized wrapper name, its
first type argument, and the full argument list. -/
structure UtilityTypeInfo where
  utilityType : String
  typeArgument : TypeNode
  allTypeArguments : List TypeNode

/-- The fixed list of recognized utility-type wrapper names (source:
supportedUtilityTypes inside getUtilityTypeArgument). -/
def supportedUtilityTypes : List String :=
  ["Partial", "Required", "Pick", "Omit", "Readonly", "NonNullable", "Extract", "Exclude",
    "ReadonlyArray"]

/-- Gets the underlying type argument data from utility types such as
Partial, Pick or Omit (source: getUtilityTypeArgument); none when the
unwrapped node is not a named reference, when the name is not a supported
wrapper, or when there is no type argument. -/
def getUtilityTypeArgument (t : TypeNode) : Option UtilityTypeInfo :=
  match unwrapReadonlyOperator t with
  | .typeReference tn args =>
    let typeName := getTypeReferenceName tn
    if !(supportedUtilityTypes.contains typeName) then none
    else
      match args with
      | some (p :: ps) => some ⟨typeName, p, p :: ps⟩
      | _ => none
  | _ => none

mutual
/-- Converts a type node to its category string for validation purposes
(source: getTypeString at checker = null, where resolveTypeWithChecker
returns null and the syntactic switch decides); null becomes none. -/
def getTypeString (t : TypeNode) : Option String :=
  getTypeStringUnwrapped (unwrapReadonlyOperator t)
termination_by 2 * sizeOf t + 1
decreasing_by
  have h := (unwrapReadonlyOperatorAux t).property
  simp only [unwrapReadonlyOperator]
  omega

/-- The switch of getTypeString over the readonly-unwrapped node. -/
def getTypeStringUnwrapped (u : TypeNode) : Option String :=
  match u with
  | .stringKeyword => some "string"
  | .numberKeyword => some "number"
  | .booleanKeyword => some "boolean"
  | .arrayType _ => some "array"
  | .tupleType _ => some "array"
  | .templateLiteralType => some "string"
  | .typeReference tn _ => some (getTypeReferenceName tn)
  | .typeLiteral => some "object"
  | .unionType _ => some "union"
  | .literalType lit =>
    match lit with
    | .literal .strVal => some "string"
    | .literal .numVal => some "number"
    | .literal .boolVal => some "boolean"
    | _ => some "literal"
  | .intersectionType types =>
    match intersectionPrimitive types with
    | some s => some s
    | none => some "intersection"
  | _ => none
termination_by 2 * sizeOf u
decreasing_by
  simp only [TypeNode.intersectionType.sizeOf_spec]
  omega

/-- The member loop of the TSIntersectionType case of getTypeString: the
first member whose category is string, number or boolean, if any. -/
def intersectionPrimitive (ts : List TypeNode) : Option String :=
  match ts with
  | [] => none
  | t :: rest =>
    match getTypeString t with
    | some s =>
      if s == "string" || s == "number" || s == "boolean" then some s
      else intersectionPrimitive rest
    | none => intersectionPrimitive rest
termination_by 2 * sizeOf ts
decreasing_by
  all_goals simp only [List.cons.sizeOf_spec]
  all_goals omega
end

/-- The member loop of the TSIntersectionType case of isComplexType: true
when some member has category string, number or boolean (the branded-type
check of lines 582 to 586 of the source). -/
def intersectionHasPrimitive (ts : List TypeNode) : Bool :=
  match ts with
  | [] => false
  | t :: rest =>
    match getTypeString t with
    | some s =>
      if s == "string" || s == "number" || s == "boolean" then true
      else intersectionHasPrimitive rest
    | none => intersectionHasPrimitive rest

/-- Checks if a type reference is a Record utility type whose value type is
a primitive (source: isRecordWithPrimitiveValue at checker = null). -/
def isRecordWithPrimitiveValue (t : TypeNode) : Bool :=
  match unwrapReadonlyOperator t with
  | .typeReference tn args =>
    if getTypeReferenceName tn != "Record" then false
    else
      match args with
      | some (_ :: v :: _) =>
        match getTypeString v with
        | some s => s == "string" || s == "number" || s == "boolean"
        | none => false
      | _ => false
  | _ => false

/-- Common built-in types that do not require nested validation (local
constant builtInTypes of isComplexType). -/
def builtInTypes : List String := ["String", "Number", "Boolean", "Date"]

/-- Types that cannot be validated even with generic parameters (local
constant nonValidatableTypes of isComplexType). -/
def nonValidatableTypes : List String := ["Promise", "Map", "Set"]

/-- Result shape of analyzeUnionType, mirroring the record the source
builds while walking the union members. -/
structure UnionAnalysis where
  isNullable : Bool
  hasMultiplePrimitives : Bool
  hasMultipleComplexTypes : Bool
  hasMixedComplexity : Bool
  nonNullTypes : List TypeNode
  primitiveTypes : List String
  complexTypes : List TypeNode

/-- The initial all-empty analysis record of analyzeUnionType. -/
def emptyUnionAnalysis : UnionAnalysis :=
  ⟨false, false, false, false, [], [], []⟩

mutual
/-- Determines if a type requires nested validation (source: isComplexType
at checker = null, so the enum-resolution block and the Pick and Omit
checker resolution are skipped). -/
def isComplexType (t : TypeNode) : Bool :=
  isComplexTypeUnwrapped (unwrapReadonlyOperator t)
termination_by 4 * sizeOf t + 3
decreasing_by
  have h := (unwrapReadonlyOperatorAux t).property
  simp only [unwrapReadonlyOperator]
  omega

/-- The body of isComplexType over the readonly-unwrapped node.  The
TSUnionType arm folds in the isUnionOfLiterals test, which only fires on
unions; the TSTypeReference arm follows the source order: the never
validatable names, then the utility-type handling, then the fall-through
checks of typeReferenceComplexityRest. -/
def isComplexTypeUnwrapped (u : TypeNode) : Bool :=
  match u with
  | .typeLiteral => true
  | .unionType types =>
    if isUnionOfLiterals (.unionType types) then false
    else decide (0 < (analyzeUnionType (.unionType types)).complexTypes.length)
  | .intersectionType types =>
    if intersectionHasPrimitive types then false else true
  | .arrayType elementType => isComplexType elementType
  | .tupleType es => anyComplexElement (getTupleElementTypes (.tupleType es))
  | .typeReference tn args =>
    let typeName := getTypeReferenceName tn
    if nonValidatableTypes.contains typeName then false
    else
      match h : getUtilityTypeArgument (.typeReference tn args) with
      | some info =>
        if info.utilityType == "ReadonlyArray" then isComplexType info.typeArgument
        else if ["Partial", "Required", "Readonly", "Pick", "Omit"].contains info.utilityType then
          isComplexType info.typeArgument
        else if info.utilityType == "NonNullable" then isComplexType info.typeArgument
        else if info.utilityType == "Extract" || info.utilityType == "Exclude" then
          isComplexType info.typeArgument
        else typeReferenceComplexityRest typeName (.typeReference tn args)
      | none => typeReferenceComplexityRest typeName (.typeReference tn args)
  | _ => false
termination_by 4 * sizeOf u + 2
decreasing_by
  all_goals try omega
  all_goals try (simp only [TypeNode.arrayType.sizeOf_spec]; omega)
  all_goals try
    (have key : ∀ l : List TypeNode, sizeOf (l.map tupleElementType) ≤ sizeOf l := by
       intro l
       induction l with
       | nil => simp
       | cons x xs ih =>
         have hx : sizeOf (tupleElementType x) ≤ sizeOf x := by
           cases x <;> simp [tupleElementType]
         simp only [List.map_cons, List.cons.sizeOf_spec]
         omega
     simp only [getTupleElementTypes, unwrapReadonlyOperator, unwrapReadonlyOperatorAux,
       TypeNode.tupleType.sizeOf_spec]
     exact Nat.lt_of_le_of_lt (Nat.mul_le_mul_left 4 (key _)) (by omega))
  all_goals
    simp only [getUtilityTypeArgument, unwrapReadonlyOperator, unwrapReadonlyOperatorAux] at h
  all_goals split at h
  all_goals try (simp at h)
  all_goals split at h
  all_goals simp at h
  all_goals
    subst h
    dsimp only
    simp only [TypeNode.typeReference.sizeOf_spec, Option.some.sizeOf_spec,
      List.cons.sizeOf_spec]
    omega

/-- The fall-through tail of the TSTypeReference arm of isComplexType
(lines 679 to 694 of the source): the Record with primitive value check,
the Array of T element recursion, the built-in names, and the final
complex verdict. -/
def typeReferenceComplexityRest (typeName : String) (u : TypeNode) : Bool :=
  if isRecordWithPrimitiveValue u then false
  else
    match u with
    | .typeReference _ (some (p :: _)) =>
      if typeName == "Array" then isComplexType p
      else if builtInTypes.contains typeName then false
      else true
    | _ => if builtInTypes.contains typeName then false else true
termination_by 4 * sizeOf u + 1
decreasing_by
  simp only [TypeNode.typeReference.sizeOf_spec, Option.some.sizeOf_spec, List.cons.sizeOf_spec]
  omega

/-- Analyzes a union type to determine its composition (source:
analyzeUnionType at checker = null); non-union inputs give the empty
record. -/
def analyzeUnionType (t : TypeNode) : UnionAnalysis :=
  match t with
  | .unionType types =>
    let r := unionMemberScan types
    { r with
      hasMultiplePrimitives := decide (1 < r.primitiveTypes.length),
      hasMultipleComplexTypes := decide (1 < r.complexTypes.length),
      hasMixedComplexity :=
        decide (0 < r.primitiveTypes.length) && decide (0 < r.complexTypes.length) }
  | _ => emptyUnionAnalysis
termination_by 4 * sizeOf t + 1
decreasing_by
  simp only [TypeNode.unionType.sizeOf_spec]
  omega

/-- The member loop of analyzeUnionType: null and undefined members set the
isNullable flag; every other member is collected into nonNullTypes and
then, according to isComplexType, into complexTypes, or into
primitiveTypes when its category string is truthy (the source tests the
string with a truthiness check, so an empty category is dropped). -/
def unionMemberScan (ts : List TypeNode) : UnionAnalysis :=
  match ts with
  | [] => emptyUnionAnalysis
  | t :: rest =>
    let r := unionMemberScan rest
    if isNullOrUndefinedKeyword t then { r with isNullable := true }
    else if isComplexType t then
      { r with nonNullTypes := t :: r.nonNullTypes, complexTypes := t :: r.complexTypes }
    else
      match getTypeString t with
      | some s =>
        if s == "" then { r with nonNullTypes := t :: r.nonNullTypes }
        else { r with nonNullTypes := t :: r.nonNullTypes, primitiveTypes := s :: r.primitiveTypes }
      | none => { r with nonNullTypes := t :: r.nonNullTypes }
termination_by 4 * sizeOf ts
decreasing_by
  all_goals simp only [List.cons.sizeOf_spec]
  all_goals omega

/-- The element check of the TSTupleType arm of isComplexType: true when
some element is complex (the some call over getTupleElementTypes). -/
def anyComplexElement (ts : List TypeNode) : Bool :=
  match ts with
  | [] => false
  | t :: rest => isComplexType t || anyComplexElement rest
termination_by 4 * sizeOf ts
decreasing_by
  all_goals simp only [List.cons.sizeOf_spec]
  all_goals omega
end

/-- Unwraps utility types repeatedly to get the base type reference
(source: unwrapUtilityTypeForClassName): while getUtilityTypeArgument
matches, the working expression is replaced by its first type argument. -/
def unwrapUtilityTypeForClassName (t : TypeNode) : TypeNode :=
  match h : getUtilityTypeArgument t with
  | none => t
  | some info => unwrapUtilityTypeForClassName info.typeArgument
termination_by sizeOf t
decreasing_by
  simp only [getUtilityTypeArgument, unwrapReadonlyOperator, unwrapReadonlyOperatorAux] at h
  split at h
  all_goals try (simp at h)
  all_goals try (split at h)
  all_goals try (simp at h)
  all_goals try (obtain ⟨hmem, h⟩ := h)
  all_goals
    subst h
    dsimp only
    have hle := (unwrapReadonlyOperatorAux t).property
    simp_all only [TypeNode.typeReference.sizeOf_spec, Option.some.sizeOf_spec,
      List.cons.sizeOf_spec]
    omega

/-- Checks if a type represents an array: T in brackets, Array of T,
ReadonlyArray of T, or a tuple (source: isArrayType). -/
def isArrayType (t : TypeNode) : Bool :=
  match unwrapReadonlyOperator t with
  | .arrayType _ => true
  | .typeReference (.ident name) _ => name == "Array" || name == "ReadonlyArray"
  | .tupleType _ => true
  | _ => false

/-- Checks if a type is a tuple type (source: isTupleType). -/
def isTupleType (t : TypeNode) : Bool :=
  match unwrapReadonlyOperator t with
  | .tupleType _ => true
  | _ => false

/-- Checks if a type is a union of literals, used for enum-like type
definitions (source: isUnionEnumType). -/
def isUnionEnumType (t : TypeNode) : Bool :=
  isUnionOfLiterals t

/-- The decorator-to-expected-types table (source: decoratorTypeMap), as
the association list of its entries in source order. -/
def decoratorTypeMapEntries : List (String × List String) :=
  [("IsString", ["string"]),
   ("IsAlpha", ["string"]),
   ("IsAlphanumeric", ["string"]),
   ("IsAscii", ["string"]),
   ("IsBase32", ["string"]),
   ("IsBase64", ["string"]),
   ("IsBIC", ["string"]),
   ("IsBtcAddress", ["string"]),
   ("IsByteLength", ["string"]),
   ("IsCreditCard", ["string"]),
   ("IsCurrency", ["string"]),
   ("IsDataURI", ["string"]),
   ("IsDecimal", ["string"]),
   ("IsEmail", ["string"]),
   ("IsEthereumAddress", ["string"]),
   ("IsFQDN", ["string"]),
   ("IsFirebasePushId", ["string"]),
   ("IsFullWidth", ["string"]),
   ("IsHalfWidth", ["string"]),
   ("IsHash", ["string"]),
   ("IsHexColor", ["string"]),
   ("IsHSL", ["string"]),
   ("IsIBAN", ["string"]),
   ("IsIdentityCard", ["string"]),
   ("IsIP", ["string"]),
   ("IsIPRange", ["string"]),
   ("IsISBN", ["string"]),
   ("IsISIN", ["string"]),
   ("IsISO8601", ["string"]),
   ("IsISO31661Alpha2", ["string"]),
   ("IsISO31661Alpha3", ["string"]),
   ("IsISO4217CurrencyCode", ["string"]),
   ("IsISSN", ["string"]),
   ("IsJSON", ["string"]),
   ("IsJWT", ["string"]),
   ("IsLatLong", ["string"]),
   ("IsLocale", ["string"]),
   ("IsLowercase", ["string"]),
   ("IsMACAddress", ["string"]),
   ("IsMD5", ["string"]),
   ("IsMimeType", ["string"]),
   ("IsMilitaryTime", ["string"]),
   ("IsMobilePhone", ["string"]),
   ("IsMongoId", ["string"]),
   ("IsMultibyte", ["string"]),
   ("IsNumberString", ["string"]),
   ("IsOctal", ["string"]),
   ("IsPassportNumber", ["string"]),
   ("IsPhoneNumber", ["string"]),
   ("IsPort", ["string"]),
   ("IsPostalCode", ["string"]),
   ("IsRFC3339", ["string"]),
   ("IsRgbColor", ["string"]),
   ("IsSemVer", ["string"]),
   ("IsStrongPassword", ["string"]),
   ("IsSurrogatePair", ["string"]),
   ("IsTimeZone", ["string"]),
   ("IsUppercase", ["string"]),
   ("IsUrl", ["string"]),
   ("IsUUID", ["string"]),
   ("IsVariableWidth", ["string"]),
   ("IsHexadecimal", ["string"]),
   ("Length", ["string"]),
   ("MaxLength", ["string"]),
   ("MinLength", ["string"]),
   ("Matches", ["string"]),
   ("Contains", ["string"]),
   ("NotContains", ["string"]),
   ("IsDateString", ["string"]),
   ("IsNumber", ["number"]),
   ("IsInt", ["number"]),
   ("IsPositive", ["number"]),
   ("IsNegative", ["number"]),
   ("IsDivisibleBy", ["number"]),
   ("IsLatitude", ["number"]),
   ("IsLongitude", ["number"]),
   ("Min", ["number"]),
   ("Max", ["number"]),
   ("IsBoolean", ["boolean"]),
   ("IsDate", ["Date"]),
   ("MinDate", ["Date"]),
   ("MaxDate", ["Date"]),
   ("IsArray", ["array", "Array"]),
   ("ArrayMinSize", ["array", "Array"]),
   ("ArrayMaxSize", ["array", "Array"]),
   ("ArrayContains", ["array", "Array"]),
   ("ArrayNotContains", ["array", "Array"]),
   ("ArrayNotEmpty", ["array", "Array"]),
   ("ArrayUnique", ["array", "Array"]),
   ("IsObject", ["object"]),
   ("IsNotEmptyObject", ["object"]),
   ("IsInstance", ["object"]),
   ("IsEnum", ["enum", "union-literal", "type-reference"])]

/-- Record lookup on the decorator table: none models an absent key. -/
def decoratorTypeMap (decorator : String) : Option (List String) :=
  decoratorTypeMapEntries.lookup decorator

/-- The expectedTypes.some matcher at the end of checkTypeMatch: a category
matches when it equals an expected entry, with the two spellings array and
Array treated as equivalent. -/
def matchesExpectedTypes (expectedTypes : List String) (s : String) : Bool :=
  expectedTypes.any fun expected =>
    if expected == "array" && s == "Array" then true
    else if expected == "Array" && s == "array" then true
    else expected == s

/-- The tail of checkTypeMatch after the utility-type step (lines 954 to
972 of the source): the nullable-union redirection, where a truthy base
category replaces the actual category, followed by the standard match. -/
def checkTypeMatchRest (expectedTypes : List String) (tyAnn : TypeNode) (actualType : String) :
    Bool :=
  let nullableCheck := isNullableUnion tyAnn
  match nullableCheck.isNullable, nullableCheck.baseType with
  | true, some base =>
    match getTypeString base with
    | some baseTypeString =>
      if baseTypeString == "" then matchesExpectedTypes expectedTypes actualType
      else matchesExpectedTypes expectedTypes baseTypeString
    | none => matchesExpectedTypes expectedTypes actualType
  | _, _ => matchesExpectedTypes expectedTypes actualType

/-- Validates if a decorator matches the type (source: checkTypeMatch at
checker = null): untracked or empty contracts always match; IsEnum accepts
literal unions and named references only; a recognized utility wrapper
other than ReadonlyArray redirects to its first argument when that
argument has a truthy category; otherwise checkTypeMatchRest decides. -/
def checkTypeMatch (decorator : String) (tyAnn : TypeNode) (actualType : String) : Bool :=
  match decoratorTypeMap decorator with
  | none => true
  | some expectedTypes =>
    if expectedTypes.length == 0 then true
    else if decorator == "IsEnum" then
      if isUnionEnumType tyAnn then expectedTypes.contains "union-literal"
      else
        match tyAnn with
        | .typeReference _ _ => expectedTypes.contains "type-reference"
        | _ => false
    else
      match h : getUtilityTypeArgument tyAnn with
      | some info =>
        if info.utilityType != "ReadonlyArray" then
          match getTypeString info.typeArgument with
          | some underlyingType =>
            if underlyingType == "" then checkTypeMatchRest expectedTypes tyAnn actualType
            else checkTypeMatch decorator info.typeArgument underlyingType
          | none => checkTypeMatchRest expectedTypes tyAnn actualType
        else checkTypeMatchRest expectedTypes tyAnn actualType
      | none => checkTypeMatchRest expectedTypes tyAnn actualType
termination_by sizeOf tyAnn
decreasing_by
  simp only [getUtilityTypeArgument, unwrapReadonlyOperator, unwrapReadonlyOperatorAux] at h
  split at h
  all_goals try (simp at h)
  all_goals try (split at h)
  all_goals try (simp at h)
  all_goals try (obtain ⟨hmem, h⟩ := h)
  all_goals
    subst h
    dsimp only
    have hle := (unwrapReadonlyOperatorAux tyAnn).property
    simp_all only [TypeNode.typeReference.sizeOf_spec, Option.some.sizeOf_spec,
      List.cons.sizeOf_spec]
    omega

/-- Fuel-indexed form of the unwrapReadonlyOperator loop: none when the
loop would need more than the given number of iterations. -/
def unwrapReadonlyOperatorFuel : Nat → TypeNode → Option TypeNode
  | 0, _ => none
  | n + 1, t =>
    match t with
    | .typeOperator op (some inner) =>
      if op == "readonly" then unwrapReadonlyOperatorFuel n inner
      else some (.typeOperator op (some inner))
    | t => some t

mutual
/-- Fuel-indexed form of getTypeString: every recursive call consumes one
unit of fuel, and running out gives none. -/
def getTypeStringFuel : Nat → TypeNode → Option (Option String)
  | 0, _ => none
  | n + 1, t =>
    match unwrapReadonlyOperator t with
    | .intersectionType types =>
      match intersectionPrimitiveFuel n types with
      | none => none
      | some (some s) => some (some s)
      | some none => some (some "intersection")
    | u => some (getTypeStringUnwrapped u)

/-- Fuel-indexed form of intersectionPrimitive. -/
def intersectionPrimitiveFuel : Nat → List TypeNode → Option (Option String)
  | _, [] => some none
  | 0, _ :: _ => none
  | n + 1, t :: rest =>
    match getTypeStringFuel n t with
    | none => none
    | some (some s) =>
      if s == "string" || s == "number" || s == "boolean" then some (some s)
      else intersectionPrimitiveFuel n rest
    | some none => intersectionPrimitiveFuel n rest
end

mutual
/-- Fuel-indexed form of isComplexType: every recursive call consumes one
unit of fuel, and running out gives none. -/
def isComplexTypeFuel : Nat → TypeNode → Option Bool
  | 0, _ => none
  | n + 1, t => isComplexTypeUnwrappedFuel n (unwrapReadonlyOperator t)

/-- Fuel-indexed form of isComplexTypeUnwrapped. -/
def isComplexTypeUnwrappedFuel : Nat → TypeNode → Option Bool
  | 0, _ => none
  | n + 1, u =>
    match u with
    | .typeLiteral => some true
    | .unionType types =>
      if isUnionOfLiterals (.unionType types) then some false
      else
        match analyzeUnionTypeFuel n (.unionType types) with
        | none => none
        | some r => some (decide (0 < r.complexTypes.length))
    | .intersectionType types => some (if intersectionHasPrimitive types then false else true)
    | .arrayType elementType => isComplexTypeFuel n elementType
    | .tupleType es => anyComplexElementFuel n (getTupleElementTypes (.tupleType es))
    | .typeReference tn args =>
      let typeName := getTypeReferenceName tn
      if nonValidatableTypes.contains typeName then some false
      else
        match getUtilityTypeArgument (.typeReference tn args) with
        | some info =>
          if info.utilityType == "ReadonlyArray" then isComplexTypeFuel n info.typeArgument
          else if ["Partial", "Required", "Readonly", "Pick", "Omit"].contains info.utilityType
          then isComplexTypeFuel n info.typeArgument
          else if info.utilityType == "NonNullable" then isComplexTypeFuel n info.typeArgument
          else if info.utilityType == "Extract" || info.utilityType == "Exclude" then
            isComplexTypeFuel n info.typeArgument
          else typeReferenceComplexityRestFuel n typeName (.typeReference tn args)
        | none => typeReferenceComplexityRestFuel n typeName (.typeReference tn args)
    | _ => some false

/-- Fuel-indexed form of typeReferenceComplexityRest. -/
def typeReferenceComplexityRestFuel : Nat → String → TypeNode → Option Bool
  | 0, _, _ => none
  | n + 1, typeName, u =>
    if isRecordWithPrimitiveValue u then some false
    else
      match u with
      | .typeReference _ (some (p :: _)) =>
        if typeName == "Array" then isComplexTypeFuel n p
        else if builtInTypes.contains typeName then some false
        else some true
      | _ => some (if builtInTypes.contains typeName then false else true)

/-- Fuel-indexed form of analyzeUnionType. -/
def analyzeUnionTypeFuel : Nat → TypeNode → Option UnionAnalysis
  | 0, _ => none
  | n + 1, t =>
    match t with
    | .unionType types =>
      match unionMemberScanFuel n types with
      | none => none
      | some r =>
        some
          { r with
            hasMultiplePrimitives := decide (1 < r.primitiveTypes.length),
            hasMultipleComplexTypes := decide (1 < r.complexTypes.length),
            hasMixedComplexity :=
              decide (0 < r.primitiveTypes.length) && decide (0 < r.complexTypes.length) }
    | _ => some emptyUnionAnalysis

/-- Fuel-indexed form of unionMemberScan. -/
def unionMemberScanFuel : Nat → List TypeNode → Option UnionAnalysis
  | _, [] => some emptyUnionAnalysis
  | 0, _ :: _ => none
  | n + 1, t :: rest =>
    match unionMemberScanFuel n rest with
    | none => none
    | some r =>
      if isNullOrUndefinedKeyword t then some { r with isNullable := true }
      else
        match isComplexTypeFuel n t with
        | none => none
        | some true =>
          some { r with nonNullTypes := t :: r.nonNullTypes, complexTypes := t :: r.complexTypes }
        | some false =>
          match getTypeString t with
          | some s =>
            if s == "" then some { r with nonNullTypes := t :: r.nonNullTypes }
            else
              some
                { r with
                  nonNullTypes := t :: r.nonNullTypes,
                  primitiveTypes := s :: r.primitiveTypes }
          | none => some { r with nonNullTypes := t :: r.nonNullTypes }

/-- Fuel-indexed form of anyComplexElement. -/
def anyComplexElementFuel : Nat → List TypeNode → Option Bool
  | _, [] => some false
  | 0, _ :: _ => none
  | n + 1, t :: rest =>
    match isComplexTypeFuel n t with
    | none => none
    | some b =>
      match anyComplexElementFuel n rest with
      | none => none
      | some b2 => some (b || b2)
end

/-- Fuel-indexed form of the unwrapUtilityTypeForClassName loop. -/
def unwrapUtilityTypeForClassNameFuel : Nat → TypeNode → Option TypeNode
  | 0, _ => none
  | n + 1, t =>
    match getUtilityTypeArgument t with
    | none => some t
    | some info => unwrapUtilityTypeForClassNameFuel n info.typeArgument

theorem unwrapReadonlyOperator_readonly (e : TypeNode) :
    unwrapReadonlyOperator (.typeOperator "readonly" (some e)) = unwrapReadonlyOperator e := rfl

theorem getTypeString_def (t : TypeNode) :
    getTypeString t = getTypeStringUnwrapped (unwrapReadonlyOperator t) := by
  simp [getTypeString]

theorem isComplexType_def (t : TypeNode) :
    isComplexType t = isComplexTypeUnwrapped (unwrapReadonlyOperator t) := by
  simp [isComplexType]

/-- C8: for the string, number and boolean keyword types, getTypeString
with no oracle returns the matching category string and isComplexType with
no oracle returns false. -/
theorem primitive_keywords_classification :
    getTypeString .stringKeyword = some "string" ∧
    getTypeString .numberKeyword = some "number" ∧
    getTypeString .booleanKeyword = some "boolean" ∧
    isComplexType .stringKeyword = false ∧
    isComplexType .numberKeyword = false ∧
    isComplexType .booleanKeyword = false := by
  refine ⟨?_, ?_, ?_, ?_, ?_, ?_⟩ <;>
    simp [getTypeString_def, isComplexType_def, getTypeStringUnwrapped, isComplexTypeUnwrapped,
      unwrapReadonlyOperator, unwrapReadonlyOperatorAux]

/-- C4: for every element type E, getTypeString with no oracle classifies
the array type of E as array, and isComplexType of the array type of E
equals isComplexType of E. -/
theorem array_classification_and_complexity (E : TypeNode) :
    getTypeString (.arrayType E) = some "array" ∧
    isComplexType (.arrayType E) = isComplexType E := by
  constructor
  · simp [getTypeString_def, getTypeStringUnwrapped, unwrapReadonlyOperator,
      unwrapReadonlyOperatorAux]
  · rw [isComplexType_def (.arrayType E)]
    have hu : unwrapReadonlyOperator (.arrayType E) = .arrayType E := rfl
    rw [hu]
    simp [isComplexTypeUnwrapped]

/-- C7: read-only wrapping is transparent to classification: getTypeString
of a readonly type operator node wrapping E equals getTypeString of E. -/
theorem getTypeString_readonly_transparent (E : TypeNode) :
    getTypeString (.typeOperator "readonly" (some E)) = getTypeString E := by
  rw [getTypeString_def, getTypeString_def, unwrapReadonlyOperator_readonly]

theorem unionMemberScan_complexTypes (ts : List TypeNode) :
    (unionMemberScan ts).complexTypes
      = ts.filter (fun m => !isNullOrUndefinedKeyword m && isComplexType m) := by
  induction ts with
  | nil => simp [unionMemberScan, emptyUnionAnalysis]
  | cons t rest ih =>
    rw [unionMemberScan]
    by_cases h1 : isNullOrUndefinedKeyword t = true
    · simp [h1, ih]
    · by_cases h2 : isComplexType t = true
      · simp [h1, h2, ih, List.filter_cons]
      · cases hg : getTypeString t with
        | none => simp [h1, h2, hg, ih, List.filter_cons]
        | some s =>
          by_cases h3 : s == ""
          · simp [h1, h2, hg, h3, ih, List.filter_cons]
          · simp [h1, h2, hg, h3, ih, List.filter_cons]

theorem analyzeUnionType_complexTypes (ms : List TypeNode) :
    (analyzeUnionType (.unionType ms)).complexTypes = (unionMemberScan ms).complexTypes := by
  rw [analyzeUnionType]

theorem isComplexType_unionType (ms : List TypeNode) :
    isComplexType (.unionType ms)
      = if isUnionOfLiterals (.unionType ms) then false
        else decide (0 < (analyzeUnionType (.unionType ms)).complexTypes.length) := by
  rw [isComplexType_def]
  have hu : unwrapReadonlyOperator (.unionType ms) = .unionType ms := rfl
  rw [hu, isComplexTypeUnwrapped]

/-- C1: isComplexType with no oracle, on a union: false when every member
is a literal type; on any other union, true exactly when some member that
is neither the null keyword nor the undefined keyword is itself complex
under isComplexType. -/
theorem isComplexType_union_characterization (ms : List TypeNode) :
    ((∀ m ∈ ms, isLiteralTypeNode m = true) → isComplexType (.unionType ms) = false) ∧
    ((¬ ∀ m ∈ ms, isLiteralTypeNode m = true) →
      (isComplexType (.unionType ms) = true ↔
        ∃ m ∈ ms, m ≠ TypeNode.nullKeyword ∧ m ≠ TypeNode.undefinedKeyword ∧
          isComplexType m = true)) := by
  have hlit : isUnionOfLiterals (.unionType ms) = true ↔ ∀ m ∈ ms, isLiteralTypeNode m = true := by
    simp [isUnionOfLiterals, List.all_eq_true]
  have hmark : ∀ m : TypeNode, (!isNullOrUndefinedKeyword m) = true ↔
      m ≠ TypeNode.nullKeyword ∧ m ≠ TypeNode.undefinedKeyword := by
    intro m
    cases m <;> simp [isNullOrUndefinedKeyword]
  constructor
  · intro hall
    rw [isComplexType_unionType, if_pos (hlit.mpr hall)]
  · intro hnot
    have hflit : isUnionOfLiterals (.unionType ms) = false := by
      rcases Bool.eq_false_or_eq_true (isUnionOfLiterals (.unionType ms)) with h | h
      · exact absurd (hlit.mp h) hnot
      · exact h
    rw [isComplexType_unionType, hflit]
    simp only [Bool.false_eq_true, if_false]
    rw [analyzeUnionType_complexTypes, unionMemberScan_complexTypes]
    simp only [decide_eq_true_eq]
    constructor
    · intro hpos
      obtain ⟨m, hm⟩ := List.exists_mem_of_length_pos hpos
      obtain ⟨hmem, hf⟩ := List.mem_filter.mp hm
      simp only [Bool.and_eq_true] at hf
      obtain ⟨hne1, hne2⟩ := (hmark m).mp hf.1
      exact ⟨m, hmem, hne1, hne2, hf.2⟩
    · rintro ⟨m, hmem, hn, hu2, hc⟩
      have hmf : m ∈ ms.filter (fun m => !isNullOrUndefinedKeyword m && isComplexType m) :=
        List.mem_filter.mpr ⟨hmem, by simp only [Bool.and_eq_true]; exact ⟨(hmark m).mpr ⟨hn, hu2⟩, hc⟩⟩
      exact List.length_pos_of_mem hmf

/-- C1 witness: the union of the string keyword and a type literal is not
all-literal and contains a complex non-null member, so the theorem makes
isComplexType return true on it. -/
theorem isComplexType_union_characterization_witness :
    isComplexType (.unionType [.stringKeyword, .typeLiteral]) = true := by
  apply ((isComplexType_union_characterization [.stringKeyword, .typeLiteral]).2 ?_).mpr ?_
  · intro hall
    have := hall .stringKeyword (by simp)
    simp [isLiteralTypeNode] at this
  · refine ⟨.typeLiteral, by simp, by simp, by simp, ?_⟩
    rw [isComplexType_def]
    have hu : unwrapReadonlyOperator .typeLiteral = .typeLiteral := rfl
    rw [hu, isComplexTypeUnwrapped]

theorem intersectionPrimitive_eq_some (ms : List TypeNode) (p : String) :
    intersectionPrimitive ms = some p →
      (p = "string" ∨ p = "number" ∨ p = "boolean") ∧ ∃ m ∈ ms, getTypeString m = some p := by
  induction ms with
  | nil =>
    intro h
    simp only [intersectionPrimitive] at h
    exact absurd h (by simp)
  | cons t rest ih =>
    intro h
    simp only [intersectionPrimitive] at h
    cases hg : getTypeString t with
    | none =>
      rw [hg] at h
      dsimp only at h
      obtain ⟨hp, m, hmem, hm⟩ := ih h
      exact ⟨hp, m, List.mem_cons_of_mem _ hmem, hm⟩
    | some s =>
      rw [hg] at h
      dsimp only at h
      by_cases hs : (s == "string" || s == "number" || s == "boolean") = true
      · rw [if_pos hs] at h
        injection h with h2
        subst h2
        refine ⟨?_, t, List.mem_cons_self _ _, hg⟩
        have h4 := hs
        simp only [Bool.or_eq_true, beq_iff_eq] at h4
        tauto
      · rw [if_neg hs] at h
        obtain ⟨hp, m, hmem, hm⟩ := ih h
        exact ⟨hp, m, List.mem_cons_of_mem _ hmem, hm⟩

theorem intersectionPrimitive_eq_none (ms : List TypeNode) :
    intersectionPrimitive ms = none ↔
      ∀ m ∈ ms, ∀ p, getTypeString m = some p →
        p ≠ "string" ∧ p ≠ "number" ∧ p ≠ "boolean" := by
  induction ms with
  | nil => simp [intersectionPrimitive]
  | cons t rest ih =>
    simp only [intersectionPrimitive]
    cases hg : getTypeString t with
    | none =>
      dsimp only
      rw [ih]
      constructor
      · intro hall m hmem p hp
        rcases List.mem_cons.mp hmem with h | h
        · subst h
          rw [hg] at hp
          exact absurd hp (by simp)
        · exact hall m h p hp
      · intro hall m hmem p hp
        exact hall m (List.mem_cons_of_mem _ hmem) p hp
    | some s =>
      dsimp only
      by_cases hs : (s == "string" || s == "number" || s == "boolean") = true
      · rw [if_pos hs]
        constructor
        · intro hcontra
          exact absurd hcontra (by simp)
        · intro hall
          exfalso
          have h5 := hall t (List.mem_cons_self _ _) s hg
          simp only [beq_iff_eq, Bool.or_eq_true] at hs
          rcases hs with (h | h) | h <;> [exact h5.1 h; exact h5.2.1 h; exact h5.2.2 h]
      · rw [if_neg hs, ih]
        constructor
        · intro hall m hmem p hp
          rcases List.mem_cons.mp hmem with h | h
          · subst h
            rw [hg] at hp
            injection hp with hp2
            subst hp2
            simp only [beq_iff_eq, Bool.or_eq_true] at hs
            push_neg at hs
            exact ⟨hs.1.1, hs.1.2, hs.2⟩
          · exact hall m h p hp
        · intro hall m hmem p hp
          exact hall m (List.mem_cons_of_mem _ hmem) p hp

theorem intersectionHasPrimitive_eq_true (ms : List TypeNode) :
    intersectionHasPrimitive ms = true ↔
      ∃ m ∈ ms, ∃ p, getTypeString m = some p ∧
        (p = "string" ∨ p = "number" ∨ p = "boolean") := by
  induction ms with
  | nil => simp [intersectionHasPrimitive]
  | cons t rest ih =>
    simp only [intersectionHasPrimitive]
    cases hg : getTypeString t with
    | none =>
      dsimp only
      rw [ih]
      constructor
      · rintro ⟨m, hmem, hp⟩
        exact ⟨m, List.mem_cons_of_mem _ hmem, hp⟩
      · rintro ⟨m, hmem, p, hp, hprim⟩
        rcases List.mem_cons.mp hmem with h | h
        · subst h
          rw [hg] at hp
          exact absurd hp (by simp)
        · exact ⟨m, h, p, hp, hprim⟩
    | some s =>
      dsimp only
      by_cases hs : (s == "string" || s == "number" || s == "boolean") = true
      · rw [if_pos hs]
        simp only [true_iff]
        refine ⟨t, List.mem_cons_self _ _, s, hg, ?_⟩
        have h4 := hs
        simp only [Bool.or_eq_true, beq_iff_eq] at h4
        tauto
      · rw [if_neg hs, ih]
        constructor
        · rintro ⟨m, hmem, hp⟩
          exact ⟨m, List.mem_cons_of_mem _ hmem, hp⟩
        · rintro ⟨m, hmem, p, hp, hprim⟩
          rcases List.mem_cons.mp hmem with h | h
          · subst h
            rw [hg] at hp
            injection hp with hp2
            subst hp2
            refine absurd ?_ hs
            simp only [Bool.or_eq_true, beq_iff_eq]
            tauto
          · exact ⟨m, h, p, hp, hprim⟩

theorem getTypeString_intersectionType (ms : List TypeNode) :
    getTypeString (.intersectionType ms)
      = match intersectionPrimitive ms with
        | some s => some s
        | none => some "intersection" := by
  rw [getTypeString_def]
  have hu : unwrapReadonlyOperator (.intersectionType ms) = .intersectionType ms := rfl
  rw [hu, getTypeStringUnwrapped]

theorem isComplexType_intersectionType (ms : List TypeNode) :
    isComplexType (.intersectionType ms)
      = if intersectionHasPrimitive ms then false else true := by
  rw [isComplexType_def]
  have hu : unwrapReadonlyOperator (.intersectionType ms) = .intersectionType ms := rfl
  rw [hu, isComplexTypeUnwrapped]

/-- C2: for every intersection, getTypeString with no oracle returns the
primitive category of some member when one classifies as string, number or
boolean, and the category intersection otherwise; and isComplexType with
no oracle returns false exactly when some member classifies as one of
those three primitives. -/
theorem intersection_branded_primitive_policy (ms : List TypeNode) :
    ((∃ m ∈ ms, ∃ p, getTypeString m = some p ∧ (p = "string" ∨ p = "number" ∨ p = "boolean")) →
      ∃ p, getTypeString (.intersectionType ms) = some p ∧
        (p = "string" ∨ p = "number" ∨ p = "boolean") ∧ ∃ m ∈ ms, getTypeString m = some p) ∧
    ((∀ m ∈ ms, ∀ p, getTypeString m = some p →
        p ≠ "string" ∧ p ≠ "number" ∧ p ≠ "boolean") →
      getTypeString (.intersectionType ms) = some "intersection") ∧
    (isComplexType (.intersectionType ms) = false ↔
      ∃ m ∈ ms, ∃ p, getTypeString m = some p ∧
        (p = "string" ∨ p = "number" ∨ p = "boolean")) := by
  refine ⟨?_, ?_, ?_⟩
  · intro hex
    cases hip : intersectionPrimitive ms with
    | none =>
      obtain ⟨m, hmem, p, hp, hprim⟩ := hex
      have := (intersectionPrimitive_eq_none ms).mp hip m hmem p hp
      rcases hprim with h | h | h <;> [exact absurd h this.1; exact absurd h this.2.1;
        exact absurd h this.2.2]
    | some q =>
      obtain ⟨hq, m, hmem, hm⟩ := intersectionPrimitive_eq_some ms q hip
      refine ⟨q, ?_, hq, m, hmem, hm⟩
      rw [getTypeString_intersectionType, hip]
  · intro hall
    have hip : intersectionPrimitive ms = none := (intersectionPrimitive_eq_none ms).mpr hall
    rw [getTypeString_intersectionType, hip]
  · rw [isComplexType_intersectionType, ← intersectionHasPrimitive_eq_true]
    by_cases h : intersectionHasPrimitive ms = true <;> simp [h]

/-- C2 witness: the intersection of a type literal and the string keyword
classifies as string through its primitive member and is not complex. -/
theorem intersection_branded_primitive_policy_witness :
    (∃ p, getTypeString (.intersectionType [.typeLiteral, .stringKeyword]) = some p ∧
      (p = "string" ∨ p = "number" ∨ p = "boolean") ∧
      ∃ m ∈ [TypeNode.typeLiteral, TypeNode.stringKeyword], getTypeString m = some p) ∧
    isComplexType (.intersectionType [.typeLiteral, .stringKeyword]) = false := by
  have hs : getTypeString TypeNode.stringKeyword = some "string" := by
    rw [getTypeString_def]
    have hu : unwrapReadonlyOperator TypeNode.stringKeyword = TypeNode.stringKeyword := rfl
    rw [hu, getTypeStringUnwrapped]
  constructor
  · exact (intersection_branded_primitive_policy [.typeLiteral, .stringKeyword]).1
      ⟨.stringKeyword, by simp, "string", hs, Or.inl rfl⟩
  · exact ((intersection_branded_primitive_policy [.typeLiteral, .stringKeyword]).2.2).mpr
      ⟨.stringKeyword, by simp, "string", hs, Or.inl rfl⟩

theorem isNullOrUndefinedKeyword_eq_true (t : TypeNode) :
    isNullOrUndefinedKeyword t = true ↔
      t = TypeNode.nullKeyword ∨ t = TypeNode.undefinedKeyword := by
  cases t <;> simp [isNullOrUndefinedKeyword]

theorem isNullOrUndefinedKeyword_eq_false (t : TypeNode) :
    isNullOrUndefinedKeyword t = false ↔
      t ≠ TypeNode.nullKeyword ∧ t ≠ TypeNode.undefinedKeyword := by
  cases t <;> simp [isNullOrUndefinedKeyword]

theorem nullableUnionScan_cons_null (rest : List TypeNode) (base : Option TypeNode)
    (hN hU : Bool) :
    nullableUnionScan (.nullKeyword :: rest) base hN hU = nullableUnionScan rest base true hU :=
  rfl

theorem nullableUnionScan_cons_undefined (rest : List TypeNode) (base : Option TypeNode)
    (hN hU : Bool) :
    nullableUnionScan (.undefinedKeyword :: rest) base hN hU
      = nullableUnionScan rest base hN true :=
  rfl

theorem nullableUnionScan_cons_other (t : TypeNode) (rest : List TypeNode)
    (base : Option TypeNode) (hN hU : Bool) (h1 : t ≠ TypeNode.nullKeyword)
    (h2 : t ≠ TypeNode.undefinedKeyword) :
    nullableUnionScan (t :: rest) base hN hU
      = match base with
        | none => nullableUnionScan rest (some t) hN hU
        | some _ => (⟨false, none⟩ : NullableUnionInfo) := by
  cases t <;> first
    | exact absurd rfl h1
    | exact absurd rfl h2
    | rfl

theorem nullableUnionScan_some_base_aborts (ts : List TypeNode) :
    ∀ (b : TypeNode) (hN hU : Bool),
      0 < (ts.filter fun m => !isNullOrUndefinedKeyword m).length →
      nullableUnionScan ts (some b) hN hU = ⟨false, none⟩ := by
  induction ts with
  | nil =>
    intro b hN hU h
    simp at h
  | cons t rest ih =>
    intro b hN hU h
    by_cases h1 : t = TypeNode.nullKeyword
    · subst h1
      rw [nullableUnionScan_cons_null]
      apply ih
      simpa [List.filter_cons, isNullOrUndefinedKeyword] using h
    · by_cases h2 : t = TypeNode.undefinedKeyword
      · subst h2
        rw [nullableUnionScan_cons_undefined]
        apply ih
        simpa [List.filter_cons, isNullOrUndefinedKeyword] using h
      · rw [nullableUnionScan_cons_other t rest (some b) hN hU h1 h2]

theorem nullableUnionScan_markers_only (ts : List TypeNode) :
    ∀ (b : TypeNode) (hN hU : Bool),
      (ts.filter fun m => !isNullOrUndefinedKeyword m) = [] →
      (hN || hU || ts.any isNullOrUndefinedKeyword) = true →
      nullableUnionScan ts (some b) hN hU = ⟨true, some b⟩ := by
  induction ts with
  | nil =>
    intro b hN hU hf hc
    simp only [List.any_nil, Bool.or_false] at hc
    simp [nullableUnionScan, hc]
  | cons t rest ih =>
    intro b hN hU hf hc
    by_cases h1 : t = TypeNode.nullKeyword
    · subst h1
      rw [nullableUnionScan_cons_null]
      apply ih
      · simpa [List.filter_cons, isNullOrUndefinedKeyword] using hf
      · simp
    · by_cases h2 : t = TypeNode.undefinedKeyword
      · subst h2
        rw [nullableUnionScan_cons_undefined]
        apply ih
        · simpa [List.filter_cons, isNullOrUndefinedKeyword] using hf
        · simp
      · exfalso
        have hm : isNullOrUndefinedKeyword t = false :=
          (isNullOrUndefinedKeyword_eq_false t).mpr ⟨h1, h2⟩
        simp [List.filter_cons, hm] at hf

theorem nullableUnionScan_single_base (ts : List TypeNode) (T : TypeNode) :
    ∀ (hN hU : Bool),
      (ts.filter fun m => !isNullOrUndefinedKeyword m) = [T] →
      (hN || hU || ts.any isNullOrUndefinedKeyword) = true →
      nullableUnionScan ts none hN hU = ⟨true, some T⟩ := by
  induction ts with
  | nil =>
    intro hN hU hf hc
    simp at hf
  | cons t rest ih =>
    intro hN hU hf hc
    by_cases h1 : t = TypeNode.nullKeyword
    · subst h1
      rw [nullableUnionScan_cons_null]
      apply ih
      · simpa [List.filter_cons, isNullOrUndefinedKeyword] using hf
      · simp
    · by_cases h2 : t = TypeNode.undefinedKeyword
      · subst h2
        rw [nullableUnionScan_cons_undefined]
        apply ih
        · simpa [List.filter_cons, isNullOrUndefinedKeyword] using hf
        · simp
      · have hm : isNullOrUndefinedKeyword t = false :=
          (isNullOrUndefinedKeyword_eq_false t).mpr ⟨h1, h2⟩
        rw [List.filter_cons] at hf
        rw [hm] at hf
        simp only [Bool.not_false, if_true] at hf
        injection hf with hft hfr
        subst hft
        rw [nullableUnionScan_cons_other t rest none hN hU h1 h2]
        apply nullableUnionScan_markers_only rest t hN hU hfr
        rw [List.any_cons, hm] at hc
        simpa using hc

theorem nullableUnionScan_two_bases (ts : List TypeNode) :
    ∀ (hN hU : Bool),
      2 ≤ (ts.filter fun m => !isNullOrUndefinedKeyword m).length →
      nullableUnionScan ts none hN hU = ⟨false, none⟩ := by
  induction ts with
  | nil =>
    intro hN hU h
    simp at h
  | cons t rest ih =>
    intro hN hU h
    by_cases h1 : t = TypeNode.nullKeyword
    · subst h1
      rw [nullableUnionScan_cons_null]
      apply ih
      simpa [List.filter_cons, isNullOrUndefinedKeyword] using h
    · by_cases h2 : t = TypeNode.undefinedKeyword
      · subst h2
        rw [nullableUnionScan_cons_undefined]
        apply ih
        simpa [List.filter_cons, isNullOrUndefinedKeyword] using h
      · have hm : isNullOrUndefinedKeyword t = false :=
          (isNullOrUndefinedKeyword_eq_false t).mpr ⟨h1, h2⟩
        rw [nullableUnionScan_cons_other t rest none hN hU h1 h2]
        apply nullableUnionScan_some_base_aborts
        rw [List.filter_cons, hm] at h
        simp only [Bool.not_false, if_true, List.length_cons] at h
        omega

theorem nullableUnionScan_no_markers (ts : List TypeNode) :
    ∀ (base : Option TypeNode),
      (∀ m ∈ ts, isNullOrUndefinedKeyword m = false) →
      nullableUnionScan ts base false false = ⟨false, none⟩ := by
  induction ts with
  | nil =>
    intro base hall
    cases base <;> simp [nullableUnionScan]
  | cons t rest ih =>
    intro base hall
    have hm : isNullOrUndefinedKeyword t = false := hall t (List.mem_cons_self _ _)
    obtain ⟨h1, h2⟩ := (isNullOrUndefinedKeyword_eq_false t).mp hm
    rw [nullableUnionScan_cons_other t rest base false false h1 h2]
    cases base with
    | none => exact ih (some t) fun m hmem => hall m (List.mem_cons_of_mem _ hmem)
    | some b => rfl

/-- C3: isNullableUnion on a union with exactly one non-null, non-undefined
member T plus at least one null or undefined member returns isNullable
true with base type T; on a union with two or more non-null, non-undefined
members, on any non-union node, and on a union without null or undefined
members it returns isNullable false with no base type. -/
theorem isNullableUnion_characterization :
    (∀ (ts : List TypeNode) (T : TypeNode),
      (ts.filter fun m => !isNullOrUndefinedKeyword m) = [T] →
      (∃ m ∈ ts, isNullOrUndefinedKeyword m = true) →
      isNullableUnion (.unionType ts) = ⟨true, some T⟩) ∧
    (∀ ts : List TypeNode,
      2 ≤ (ts.filter fun m => !isNullOrUndefinedKeyword m).length →
      isNullableUnion (.unionType ts) = ⟨false, none⟩) ∧
    (∀ t : TypeNode, (∀ ms : List TypeNode, t ≠ .unionType ms) →
      isNullableUnion t = ⟨false, none⟩) ∧
    (∀ ts : List TypeNode,
      (∀ m ∈ ts, isNullOrUndefinedKeyword m = false) →
      isNullableUnion (.unionType ts) = ⟨false, none⟩) := by
  have hdef : ∀ ts : List TypeNode,
      isNullableUnion (.unionType ts) = nullableUnionScan ts none false false := fun ts => rfl
  refine ⟨?_, ?_, ?_, ?_⟩
  · intro ts T hf hex
    rw [hdef]
    apply nullableUnionScan_single_base ts T false false hf
    simpa [List.any_eq_true] using hex
  · intro ts h
    rw [hdef]
    exact nullableUnionScan_two_bases ts false false h
  · intro t hne
    cases t with
    | unionType ms => exact absurd rfl (hne ms)
    | _ => rfl
  · intro ts hall
    rw [hdef]
    exact nullableUnionScan_no_markers ts none hall

/-- C3 witness: the union of the string keyword and the null keyword is a
nullable union with the string keyword as base type, and the union of the
string and number keywords is not. -/
theorem isNullableUnion_characterization_witness :
    isNullableUnion (.unionType [.stringKeyword, .nullKeyword])
      = ⟨true, some TypeNode.stringKeyword⟩ ∧
    isNullableUnion (.unionType [.stringKeyword, .numberKeyword, .nullKeyword])
      = ⟨false, none⟩ := by
  constructor
  · exact isNullableUnion_characterization.1 [.stringKeyword, .nullKeyword] .stringKeyword
      (by simp [List.filter_cons, isNullOrUndefinedKeyword])
      ⟨.nullKeyword, by simp, by simp [isNullOrUndefinedKeyword]⟩
  · exact isNullableUnion_characterization.2.1 [.stringKeyword, .numberKeyword, .nullKeyword]
      (by simp [List.filter_cons, isNullOrUndefinedKeyword])

theorem getUtilityTypeArgument_eq (t : TypeNode) :
    getUtilityTypeArgument t
      = match unwrapReadonlyOperator t with
        | .typeReference tn (some (p :: ps)) =>
          if supportedUtilityTypes.contains (getTypeReferenceName tn)
          then some ⟨getTypeReferenceName tn, p, p :: ps⟩ else none
        | _ => none := by
  unfold getUtilityTypeArgument
  cases unwrapReadonlyOperator t
  case typeReference tn args =>
    cases args with
    | none => simp
    | some ps =>
      cases ps with
      | nil => simp
      | cons p ps2 =>
        by_cases hc : supportedUtilityTypes.contains (getTypeReferenceName tn) = true <;>
          simp [hc]
  all_goals rfl

/-- C5: getUtilityTypeArgument returns a result exactly when the
readonly-unwrapped expression is a named reference whose reconstructed
name is a supported utility-type name carrying at least one type argument,
and in that case the result holds that name, the first argument, and the
full argument list; every other expression, including a bare reference and
a recognized name with zero arguments, gives none. -/
theorem getUtilityTypeArgument_characterization (t : TypeNode) :
    ((getUtilityTypeArgument t).isSome = true ↔
      ∃ (tn : EntityName) (ps : List TypeNode),
        unwrapReadonlyOperator t = .typeReference tn (some ps) ∧
        supportedUtilityTypes.contains (getTypeReferenceName tn) = true ∧ ps ≠ []) ∧
    (∀ (tn : EntityName) (p : TypeNode) (ps : List TypeNode),
      unwrapReadonlyOperator t = .typeReference tn (some (p :: ps)) →
      supportedUtilityTypes.contains (getTypeReferenceName tn) = true →
      getUtilityTypeArgument t = some ⟨getTypeReferenceName tn, p, p :: ps⟩) := by
  constructor
  · constructor
    · intro hs
      rw [getUtilityTypeArgument_eq] at hs
      cases hu : unwrapReadonlyOperator t
      case typeReference tn args =>
        rw [hu] at hs
        cases args with
        | none => simp at hs
        | some ps =>
          cases ps with
          | nil => simp at hs
          | cons p ps2 =>
            dsimp only at hs
            by_cases hc : supportedUtilityTypes.contains (getTypeReferenceName tn) = true
            · exact ⟨tn, p :: ps2, rfl, hc, by simp⟩
            · rw [if_neg hc] at hs
              exact absurd hs (by simp)
      all_goals (rw [hu] at hs; simp at hs)
    · rintro ⟨tn, ps, hu, hc, hne⟩
      cases ps with
      | nil => exact absurd rfl hne
      | cons p ps2 =>
        rw [getUtilityTypeArgument_eq, hu]
        dsimp only
        rw [if_pos hc]
        rfl
  · intro tn p ps hu hc
    rw [getUtilityTypeArgument_eq, hu]
    dsimp only
    rw [if_pos hc]

/-- C5 witness: Pick of User and a string literal unwraps to the expected
triple, while the bare reference User gives none. -/
theorem getUtilityTypeArgument_characterization_witness :
    getUtilityTypeArgument (.typeReference (.ident "Pick")
        (some [.typeReference (.ident "User") none, .literalType (.literal .strVal)]))
      = some ⟨"Pick", .typeReference (.ident "User") none,
          [.typeReference (.ident "User") none, .literalType (.literal .strVal)]⟩ ∧
    getUtilityTypeArgument (.typeReference (.ident "User") none) = none := by
  constructor
  · exact (getUtilityTypeArgument_characterization _).2 (.ident "Pick")
      (.typeReference (.ident "User") none) [.literalType (.literal .strVal)] rfl (by decide)
  · cases hval : getUtilityTypeArgument (.typeReference (.ident "User") none) with
    | none => rfl
    | some info =>
      exfalso
      have hs : (getUtilityTypeArgument
          (.typeReference (.ident "User") none : TypeNode)).isSome = true := by
        rw [hval]; rfl
      obtain ⟨tn, ps, hu, hc, hne⟩ :=
        (getUtilityTypeArgument_characterization _).1.mp hs
      have hu2 : (.typeReference (.ident "User") none : TypeNode)
          = .typeReference tn (some ps) := hu
      injection hu2 with ha hb
      exact Option.noConfusion hb

/-- C6: checkTypeMatch for the IsEnum decorator is true exactly when the
type expression is a union whose members are all literal types or a named
type reference, regardless of the actual category argument; every other
shape gives false. -/
theorem checkTypeMatch_isEnum_characterization (t : TypeNode) (cat : String) :
    checkTypeMatch "IsEnum" t cat
      = match t with
        | .unionType ms => ms.all isLiteralTypeNode
        | .typeReference _ _ => true
        | _ => false := by
  have hmap : decoratorTypeMap "IsEnum" = some ["enum", "union-literal", "type-reference"] := by
    rfl
  cases t
  case unionType ms =>
    by_cases hall : ms.all isLiteralTypeNode = true <;>
      simp [checkTypeMatch, hmap, isUnionEnumType, isUnionOfLiterals, hall]
  case typeReference tn args =>
    simp [checkTypeMatch, hmap, isUnionEnumType, isUnionOfLiterals]
  all_goals simp [checkTypeMatch, hmap, isUnionEnumType, isUnionOfLiterals]

/-- C10: a ReadonlyArray reference classifies as the string ReadonlyArray,
fails checkTypeMatch for every decorator whose contract is the pair array
and Array, and yet satisfies isArrayType. -/
theorem readonlyArray_reference_mismatch (T : TypeNode) (d : String)
    (hd : decoratorTypeMap d = some ["array", "Array"]) :
    getTypeString (.typeReference (.ident "ReadonlyArray") (some [T])) = some "ReadonlyArray" ∧
    checkTypeMatch d (.typeReference (.ident "ReadonlyArray") (some [T])) "ReadonlyArray"
      = false ∧
    isArrayType (.typeReference (.ident "ReadonlyArray") (some [T])) = true := by
  have hdne : d ≠ "IsEnum" := by
    intro he
    rw [he] at hd
    have hmap : decoratorTypeMap "IsEnum"
        = some ["enum", "union-literal", "type-reference"] := by rfl
    rw [hmap] at hd
    simp at hd
  refine ⟨?_, ?_, ?_⟩
  · rw [getTypeString_def]
    have hu : unwrapReadonlyOperator (.typeReference (.ident "ReadonlyArray") (some [T]))
        = .typeReference (.ident "ReadonlyArray") (some [T]) := rfl
    rw [hu, getTypeStringUnwrapped]
    rfl
  · have hu : getUtilityTypeArgument
        (.typeReference (.ident "ReadonlyArray") (some [T]))
        = some ⟨"ReadonlyArray", T, [T]⟩ := by
      rw [getUtilityTypeArgument_eq]
      have hw : unwrapReadonlyOperator
          (.typeReference (.ident "ReadonlyArray") (some [T]))
          = .typeReference (.ident "ReadonlyArray") (some [T]) := rfl
      rw [hw]
      dsimp only
      rw [if_pos (by decide)]
      rfl
    rw [checkTypeMatch, hd]
    dsimp only
    rw [if_neg (by decide)]
    rw [if_neg (by simp [hdne])]
    rw [hu]
    dsimp only
    rw [if_neg (by decide)]
    rfl
  · rfl

/-- C10 witness: the IsArray decorator carries the array and Array
contract, and it rejects ReadonlyArray of the string keyword. -/
theorem readonlyArray_reference_mismatch_witness :
    getTypeString (.typeReference (.ident "ReadonlyArray") (some [.stringKeyword]))
      = some "ReadonlyArray" ∧
    checkTypeMatch "IsArray" (.typeReference (.ident "ReadonlyArray") (some [.stringKeyword]))
      "ReadonlyArray" = false ∧
    isArrayType (.typeReference (.ident "ReadonlyArray") (some [.stringKeyword])) = true :=
  readonlyArray_reference_mismatch .stringKeyword "IsArray" rfl

theorem TypeNode_sizeOf_pos (t : TypeNode) : 0 < sizeOf t := by
  cases t <;> simp_arith

theorem sizeOf_unwrapReadonlyOperator_le (t : TypeNode) :
    sizeOf (unwrapReadonlyOperator t) ≤ sizeOf t :=
  (unwrapReadonlyOperatorAux t).property

theorem sizeOf_map_tupleElementType_le (l : List TypeNode) :
    sizeOf (l.map tupleElementType) ≤ sizeOf l := by
  induction l with
  | nil => simp
  | cons x xs ih =>
    have hx : sizeOf (tupleElementType x) ≤ sizeOf x := by
      cases x <;> simp [tupleElementType]
    simp only [List.map_cons, List.cons.sizeOf_spec]
    omega

theorem getUtilityTypeArgument_sizeOf_lt (t : TypeNode) (info : UtilityTypeInfo)
    (h : getUtilityTypeArgument t = some info) : sizeOf info.typeArgument < sizeOf t := by
  rw [getUtilityTypeArgument_eq] at h
  split at h
  · rename_i x tn p ps heq
    split at h
    · injection h with h2
      subst h2
      dsimp only
      have hle := sizeOf_unwrapReadonlyOperator_le t
      rw [heq] at hle
      simp only [TypeNode.typeReference.sizeOf_spec, Option.some.sizeOf_spec,
        List.cons.sizeOf_spec] at hle
      omega
    · exact absurd h (by simp)
  · exact absurd h (by simp)

theorem getTypeStringFuel_agree (n : Nat) :
    (∀ t : TypeNode, sizeOf t ≤ n → getTypeStringFuel n t = some (getTypeString t)) ∧
    (∀ ts : List TypeNode, sizeOf ts ≤ n →
      intersectionPrimitiveFuel n ts = some (intersectionPrimitive ts)) := by
  induction n with
  | zero =>
    constructor
    · intro t h
      exact absurd h (by have := TypeNode_sizeOf_pos t; omega)
    · intro ts h
      cases ts with
      | nil => simp only [intersectionPrimitiveFuel, intersectionPrimitive]
      | cons t rest =>
        exfalso
        simp only [List.cons.sizeOf_spec] at h
        omega
  | succ n ih =>
    obtain ⟨ihT, ihL⟩ := ih
    constructor
    · intro t h
      rw [getTypeStringFuel]
      cases hu : unwrapReadonlyOperator t
      case intersectionType types =>
        have hsz : sizeOf types ≤ n := by
          have h1 := sizeOf_unwrapReadonlyOperator_le t
          rw [hu] at h1
          simp only [TypeNode.intersectionType.sizeOf_spec] at h1
          omega
        dsimp only
        rw [ihL types hsz]
        rw [getTypeString_def, hu, getTypeStringUnwrapped]
        cases intersectionPrimitive types <;> rfl
      all_goals (rw [getTypeString_def, hu]; try rfl)
    · intro ts h
      cases ts with
      | nil => simp only [intersectionPrimitiveFuel, intersectionPrimitive]
      | cons t rest =>
        simp only [List.cons.sizeOf_spec] at h
        have h1 : sizeOf t ≤ n := by omega
        have h2 : sizeOf rest ≤ n := by omega
        rw [intersectionPrimitiveFuel, ihT t h1, intersectionPrimitive]
        cases hg : getTypeString t with
        | none =>
          dsimp only
          exact ihL rest h2
        | some s =>
          dsimp only
          by_cases hp : (s == "string" || s == "number" || s == "boolean") = true
          · rw [if_pos hp, if_pos hp]
          · rw [if_neg hp, if_neg hp]
            exact ihL rest h2

theorem complexityFuel_agree (n : Nat) :
    (∀ t : TypeNode, 4 * sizeOf t + 3 ≤ n →
      isComplexTypeFuel n t = some (isComplexType t)) ∧
    (∀ u : TypeNode, 4 * sizeOf u + 2 ≤ n →
      isComplexTypeUnwrappedFuel n u = some (isComplexTypeUnwrapped u)) ∧
    (∀ (tyName : String) (u : TypeNode), 4 * sizeOf u + 1 ≤ n →
      typeReferenceComplexityRestFuel n tyName u
        = some (typeReferenceComplexityRest tyName u)) ∧
    (∀ t : TypeNode, 4 * sizeOf t + 1 ≤ n →
      analyzeUnionTypeFuel n t = some (analyzeUnionType t)) ∧
    (∀ ts : List TypeNode, 4 * sizeOf ts ≤ n →
      unionMemberScanFuel n ts = some (unionMemberScan ts)) ∧
    (∀ ts : List TypeNode, 4 * sizeOf ts ≤ n →
      anyComplexElementFuel n ts = some (anyComplexElement ts)) := by
  induction n with
  | zero =>
    refine ⟨?_, ?_, ?_, ?_, ?_, ?_⟩
    · intro t h
      exact absurd h (by omega)
    · intro u h
      exact absurd h (by omega)
    · intro tyName u h
      exact absurd h (by omega)
    · intro t h
      exact absurd h (by omega)
    · intro ts h
      cases ts with
      | nil => simp only [unionMemberScanFuel, unionMemberScan]
      | cons t rest =>
        exfalso
        simp only [List.cons.sizeOf_spec] at h
        omega
    · intro ts h
      cases ts with
      | nil => simp only [anyComplexElementFuel, anyComplexElement]
      | cons t rest =>
        exfalso
        simp only [List.cons.sizeOf_spec] at h
        omega
  | succ n ih =>
    obtain ⟨ih1, ih2, ih3, ih4, ih5, ih6⟩ := ih
    have main2 : ∀ u : TypeNode, 4 * sizeOf u + 2 ≤ n + 1 →
        isComplexTypeUnwrappedFuel (n + 1) u = some (isComplexTypeUnwrapped u) := by
      intro u h
      cases u
      case typeLiteral => rw [isComplexTypeUnwrappedFuel, isComplexTypeUnwrapped]
      case unionType types =>
        rw [isComplexTypeUnwrappedFuel, isComplexTypeUnwrapped]
        by_cases hl : isUnionOfLiterals (.unionType types) = true
        · rw [if_pos hl, if_pos hl]
        · rw [if_neg hl, if_neg hl]
          have hsz : 4 * sizeOf (TypeNode.unionType types) + 1 ≤ n := by
            simp only [TypeNode.unionType.sizeOf_spec] at h ⊢
            omega
          rw [ih4 _ hsz]
      case intersectionType types =>
        rw [isComplexTypeUnwrappedFuel, isComplexTypeUnwrapped]
      case arrayType elementType =>
        rw [isComplexTypeUnwrappedFuel, isComplexTypeUnwrapped]
        have hsz : 4 * sizeOf elementType + 3 ≤ n := by
          simp only [TypeNode.arrayType.sizeOf_spec] at h
          omega
        rw [ih1 _ hsz]
      case tupleType es =>
        rw [isComplexTypeUnwrappedFuel, isComplexTypeUnwrapped]
        have heq : getTupleElementTypes (.tupleType es) = es.map tupleElementType := rfl
        have hsz : 4 * sizeOf (getTupleElementTypes (.tupleType es)) ≤ n := by
          rw [heq]
          have := sizeOf_map_tupleElementType_le es
          simp only [TypeNode.tupleType.sizeOf_spec] at h
          omega
        rw [ih6 _ hsz]
      case typeReference tn args =>
        rw [isComplexTypeUnwrappedFuel, isComplexTypeUnwrapped]
        by_cases hnv : nonValidatableTypes.contains (getTypeReferenceName tn) = true
        · rw [if_pos hnv, if_pos hnv]
        · rw [if_neg hnv, if_neg hnv]
          have hszu : 4 * sizeOf (TypeNode.typeReference tn args) + 1 ≤ n := by omega
          cases hg : getUtilityTypeArgument (.typeReference tn args) with
          | none =>
            dsimp only
            rw [ih3 _ _ hszu]
          | some info =>
            dsimp only
            have harg : 4 * sizeOf info.typeArgument + 3 ≤ n := by
              have := getUtilityTypeArgument_sizeOf_lt _ _ hg
              omega
            by_cases h1 : (info.utilityType == "ReadonlyArray") = true
            · rw [if_pos h1, if_pos h1, ih1 _ harg]
            · rw [if_neg h1, if_neg h1]
              by_cases h2 :
                  (["Partial", "Required", "Readonly", "Pick", "Omit"].contains
                    info.utilityType) = true
              · rw [if_pos h2, if_pos h2, ih1 _ harg]
              · rw [if_neg h2, if_neg h2]
                by_cases h3 : (info.utilityType == "NonNullable") = true
                · rw [if_pos h3, if_pos h3, ih1 _ harg]
                · rw [if_neg h3, if_neg h3]
                  by_cases h4 :
                      (info.utilityType == "Extract" || info.utilityType == "Exclude") = true
                  · rw [if_pos h4, if_pos h4, ih1 _ harg]
                  · rw [if_neg h4, if_neg h4, ih3 _ _ hszu]
      all_goals simp [isComplexTypeUnwrappedFuel, isComplexTypeUnwrapped]
    refine ⟨?_, main2, ?_, ?_, ?_, ?_⟩
    · intro t h
      rw [isComplexTypeFuel, isComplexType_def]
      have hsz : 4 * sizeOf (unwrapReadonlyOperator t) + 2 ≤ n := by
        have := sizeOf_unwrapReadonlyOperator_le t
        omega
      exact ih2 _ hsz
    · intro tyName u h
      by_cases hx : ∃ (tn : EntityName) (p : TypeNode) (ps : List TypeNode),
          u = TypeNode.typeReference tn (some (p :: ps))
      · obtain ⟨tn2, p, ps2, rfl⟩ := hx
        rw [typeReferenceComplexityRestFuel, typeReferenceComplexityRest]
        by_cases hr : isRecordWithPrimitiveValue
            (TypeNode.typeReference tn2 (some (p :: ps2))) = true
        · rw [if_pos hr, if_pos hr]
        · rw [if_neg hr, if_neg hr]
          by_cases ha : (tyName == "Array") = true
          · rw [if_pos ha, if_pos ha]
            have hsz : 4 * sizeOf p + 3 ≤ n := by
              simp only [TypeNode.typeReference.sizeOf_spec, Option.some.sizeOf_spec,
                List.cons.sizeOf_spec] at h
              omega
            exact ih1 _ hsz
          · rw [if_neg ha, if_neg ha]
            by_cases hb : (builtInTypes.contains tyName) = true
            · rw [if_pos hb, if_pos hb]
            · rw [if_neg hb, if_neg hb]
      · push_neg at hx
        rw [typeReferenceComplexityRestFuel, typeReferenceComplexityRest]
        · by_cases hr : isRecordWithPrimitiveValue u = true
          · rw [if_pos hr, if_pos hr]
          · rw [if_neg hr, if_neg hr]
        · intro tn p tail heq
          exact hx tn p tail heq
        · intro tn p tail heq
          exact hx tn p tail heq
    · intro t h
      cases t
      case unionType types =>
        rw [analyzeUnionTypeFuel, analyzeUnionType]
        have hsz : 4 * sizeOf types ≤ n := by
          simp only [TypeNode.unionType.sizeOf_spec] at h
          omega
        rw [ih5 _ hsz]
      all_goals simp [analyzeUnionTypeFuel, analyzeUnionType]
    · intro ts h
      cases ts with
      | nil => simp only [unionMemberScanFuel, unionMemberScan]
      | cons t rest =>
        simp only [List.cons.sizeOf_spec] at h
        have hszr : 4 * sizeOf rest ≤ n := by omega
        have hszt : 4 * sizeOf t + 3 ≤ n := by omega
        rw [unionMemberScanFuel, ih5 _ hszr, unionMemberScan]
        dsimp only
        by_cases hm : isNullOrUndefinedKeyword t = true
        · rw [if_pos hm, if_pos hm]
        · rw [if_neg hm, if_neg hm]
          rw [ih1 _ hszt]
          cases hc : isComplexType t with
          | true =>
            dsimp only
            rw [if_pos rfl]
          | false =>
            dsimp only
            rw [if_neg (by simp)]
            cases hg : getTypeString t with
            | none => rfl
            | some s =>
              dsimp only
              by_cases hs : (s == "") = true
              · rw [if_pos hs, if_pos hs]
              · rw [if_neg hs, if_neg hs]
    · intro ts h
      cases ts with
      | nil => simp only [anyComplexElementFuel, anyComplexElement]
      | cons t rest =>
        simp only [List.cons.sizeOf_spec] at h
        have hszr : 4 * sizeOf rest ≤ n := by omega
        have hszt : 4 * sizeOf t + 3 ≤ n := by omega
        rw [anyComplexElementFuel, ih1 _ hszt, ih6 _ hszr, anyComplexElement]

theorem unwrapReadonlyOperator_typeOperator (op : String) (inner : TypeNode) :
    unwrapReadonlyOperator (.typeOperator op (some inner))
      = if op == "readonly" then unwrapReadonlyOperator inner
        else .typeOperator op (some inner) := by
  unfold unwrapReadonlyOperator
  conv_lhs => rw [unwrapReadonlyOperatorAux]
  by_cases hop : (op == "readonly") = true
  · rw [if_pos hop, if_pos hop]
  · rw [if_neg hop, if_neg hop]

theorem unwrapReadonlyOperatorFuel_agree (n : Nat) :
    ∀ t : TypeNode, sizeOf t ≤ n →
      unwrapReadonlyOperatorFuel n t = some (unwrapReadonlyOperator t) := by
  induction n with
  | zero =>
    intro t h
    exact absurd h (by have := TypeNode_sizeOf_pos t; omega)
  | succ n ih =>
    intro t h
    cases t
    case typeOperator op ann =>
      cases ann with
      | none =>
        simp [unwrapReadonlyOperatorFuel, unwrapReadonlyOperator, unwrapReadonlyOperatorAux]
      | some inner =>
        rw [unwrapReadonlyOperatorFuel, unwrapReadonlyOperator_typeOperator]
        by_cases hop : (op == "readonly") = true
        · rw [if_pos hop, if_pos hop]
          apply ih
          simp only [TypeNode.typeOperator.sizeOf_spec, Option.some.sizeOf_spec] at h
          omega
        · rw [if_neg hop, if_neg hop]
    all_goals
      simp [unwrapReadonlyOperatorFuel, unwrapReadonlyOperator, unwrapReadonlyOperatorAux]

theorem unwrapUtilityTypeForClassName_none {t : TypeNode}
    (hg : getUtilityTypeArgument t = none) : unwrapUtilityTypeForClassName t = t := by
  conv_lhs => rw [unwrapUtilityTypeForClassName]
  split
  · rfl
  · rename_i info heq
    rw [hg] at heq
    exact absurd heq (by simp)

theorem unwrapUtilityTypeForClassName_some {t : TypeNode} {info : UtilityTypeInfo}
    (hg : getUtilityTypeArgument t = some info) :
    unwrapUtilityTypeForClassName t = unwrapUtilityTypeForClassName info.typeArgument := by
  conv_lhs => rw [unwrapUtilityTypeForClassName]
  split
  · rename_i heq
    rw [hg] at heq
    exact absurd heq (by simp)
  · rename_i info2 heq
    rw [hg] at heq
    injection heq with h2
    rw [h2]

theorem unwrapUtilityTypeForClassNameFuel_agree (n : Nat) :
    ∀ t : TypeNode, sizeOf t ≤ n →
      unwrapUtilityTypeForClassNameFuel n t = some (unwrapUtilityTypeForClassName t) := by
  induction n with
  | zero =>
    intro t h
    exact absurd h (by have := TypeNode_sizeOf_pos t; omega)
  | succ n ih =>
    intro t h
    rw [unwrapUtilityTypeForClassNameFuel]
    cases hg : getUtilityTypeArgument t with
    | none =>
      dsimp only
      rw [unwrapUtilityTypeForClassName_none hg]
    | some info =>
      dsimp only
      have hsz : sizeOf info.typeArgument ≤ n := by
        have := getUtilityTypeArgument_sizeOf_lt t info hg
        omega
      rw [ih info.typeArgument hsz, unwrapUtilityTypeForClassName_some hg]

/-- C9: every classification operation terminates on every finite type
expression: with fuel at least four times the size of the tree plus three,
the fuel-indexed forms of the unwrapReadonlyOperator loop, getTypeString,
isComplexType, analyzeUnionType and the unwrapUtilityTypeForClassName loop
never exhaust their fuel and agree with the total functions, because every
recursive call and loop iteration descends to a strictly smaller subterm. -/
theorem classification_terminates (t : TypeNode) (n : Nat) (h : 4 * sizeOf t + 3 ≤ n) :
    unwrapReadonlyOperatorFuel n t = some (unwrapReadonlyOperator t) ∧
    getTypeStringFuel n t = some (getTypeString t) ∧
    isComplexTypeFuel n t = some (isComplexType t) ∧
    analyzeUnionTypeFuel n t = some (analyzeUnionType t) ∧
    unwrapUtilityTypeForClassNameFuel n t = some (unwrapUtilityTypeForClassName t) := by
  have hle : sizeOf t ≤ n := by omega
  exact ⟨unwrapReadonlyOperatorFuel_agree n t hle, (getTypeStringFuel_agree n).1 t hle,
    (complexityFuel_agree n).1 t h, (complexityFuel_agree n).2.2.2.1 t (by omega),
    unwrapUtilityTypeForClassNameFuel_agree n t hle⟩

/-- C9 witness: the fuel bound holds and the agreement follows at a
concrete union node with nineteen units of fuel. -/
theorem classification_terminates_witness :
    unwrapReadonlyOperatorFuel 19 (.unionType [.stringKeyword])
      = some (unwrapReadonlyOperator (.unionType [.stringKeyword])) ∧
    getTypeStringFuel 19 (.unionType [.stringKeyword])
      = some (getTypeString (.unionType [.stringKeyword])) ∧
    isComplexTypeFuel 19 (.unionType [.stringKeyword])
      = some (isComplexType (.unionType [.stringKeyword])) ∧
    analyzeUnionTypeFuel 19 (.unionType [.stringKeyword])
      = some (analyzeUnionType (.unionType [.stringKeyword])) ∧
    unwrapUtilityTypeForClassNameFuel 19 (.unionType [.stringKeyword])
      = some (unwrapUtilityTypeForClassName (.unionType [.stringKeyword])) :=
  classification_terminates (.unionType [.stringKeyword]) 19 (by decide)
